/-
Verification of the STEP multiview renderer
(src/backend/step_editor/step_renderer.py).

Shallow embedding conventions:
* 3D points and vectors are triples of rationals (Python floats are
  modelled as exact rationals; the float literals 0.12, 1e-6, 0.5, 0.3
  become 12/100, 1/1000000, 1/2, 3/10).
* Pixel coordinates are integers; Python `int(...)` truncation toward
  zero is `pyInt`.
* PIL drawing calls are abstracted into a trace of `MarkerOp`
  operations (glyphs and badges) and `LegendRow` rows; the geometric and
  layout logic that produces them is translated statement by statement.
* The text-measuring backend (`draw.textbbox`) and the pixel projection
  closure (`to_px`) are passed as explicit function parameters, exactly
  as `to_px` is a parameter of `_draw_feature_markers` in the source.
* Python exceptions raised by one view's render are modelled with
  `Except`, and `render_multiview`'s try/except loop folds over the view
  table.
-/
import Mathlib

namespace StepRenderer

/-- A 3D point (or direction vector): Python tuples `(x, y, z)` of floats. -/
abbrev Point := ℚ × ℚ × ℚ

/-- Embeds `_dot` (step_renderer.py line 88): 3D dot product. -/
def _dot (a b : Point) : ℚ :=
  a.1 * b.1 + a.2.1 * b.2.1 + a.2.2 * b.2.2

/-- Python `int(...)` on a float: truncation toward zero. -/
def pyInt (q : ℚ) : ℤ :=
  if 0 ≤ q then ⌊q⌋ else -⌊-q⌋

/-- Floor of the fourth root of a nonnegative rational: the value of
Python `int(a ** 0.25)` for `a ≥ 0` (floats modelled as exact reals);
`⌊a ^ (1/4)⌋ = Nat.sqrt (Nat.sqrt ⌊a⌋)` by the nested-floor identity for
square roots. -/
def fourthRootFloor (a : ℚ) : ℕ :=
  Nat.sqrt (Nat.sqrt (Int.toNat ⌊a⌋))

/-- Python `s.replace(pat, rep)` for a single-character pattern and
replacement (the only form used in the source: `.replace("f","C")` etc.):
every occurrence of the character is replaced. -/
def pyReplaceChar (s : String) (pat rep : Char) : String :=
  String.mk (s.data.map (fun c => if c = pat then rep else c))

/-- One entry of the `VIEWS` table (step_renderer.py lines 28-83). -/
structure ViewCfg where
  name : String
  label : String
  view_dir : Point
  project_fn : String
  u_axis : Option Point
  v_axis : Option Point
deriving DecidableEq

/-- Embeds the `VIEWS` table (step_renderer.py lines 28-83). -/
def VIEWS : List ViewCfg :=
  [ ⟨"isometric", "Isometric", (1/2, -(1/2), 1/2), "isometric", none, none⟩,
    ⟨"top", "Top (+Z → down)", (0, 0, 1), "ortho", some (1, 0, 0), some (0, 1, 0)⟩,
    ⟨"bottom", "Bottom (-Z → up)", (0, 0, -1), "ortho", some (1, 0, 0), some (0, -1, 0)⟩,
    ⟨"front", "Front (-Y → front)", (0, -1, 0), "ortho", some (1, 0, 0), some (0, 0, -1)⟩,
    ⟨"back", "Back (+Y → back)", (0, 1, 0), "ortho", some (-1, 0, 0), some (0, 0, -1)⟩,
    ⟨"left", "Left (-X → left)", (-1, 0, 0), "ortho", some (0, 1, 0), some (0, 0, -1)⟩,
    ⟨"right", "Right (+X → right)", (1, 0, 0), "ortho", some (0, -1, 0), some (0, 0, -1)⟩ ]

/-- Embeds `_ortho_project` (lines 100-105). -/
def _ortho_project (p : Point) (u_axis v_axis : Point) : ℚ × ℚ :=
  (_dot p u_axis, _dot p v_axis)

/-- Embeds `_map_to_canvas` (lines 108-118); `margin` defaults to 80 in
the source and is passed explicitly here. -/
def _map_to_canvas (sx sy : ℚ) (proj_min proj_max : ℚ × ℚ)
    (canvas_w canvas_h margin : ℚ) : ℤ × ℤ :=
  let px_min := proj_min.1
  let py_min := proj_min.2
  let px_max := proj_max.1
  let py_max := proj_max.2
  let span_x := max (px_max - px_min) (1/1000000)
  let span_y := max (py_max - py_min) (1/1000000)
  let cw := canvas_w - 2 * margin
  let ch := canvas_h - 2 * margin
  let cx := margin + (sx - px_min) / span_x * cw
  let cy := margin + (sy - py_min) / span_y * ch
  (pyInt cx, pyInt cy)

/-- The flat list of depths `dot(p, view_dir)` of every sampled point,
as produced inside `_compute_model_depth_range` (lines 182-185). -/
def depthsList (all_edge_pts : List (List Point)) (view_dir : Point) : List ℚ :=
  (all_edge_pts.map (fun pts => pts.map (fun p => _dot p view_dir))).flatten

/-- Embeds `_compute_model_depth_range` (lines 180-188): min/max depth of
all model points along `view_dir`, `(0, 1)` when there are no points. -/
def _compute_model_depth_range (all_edge_pts : List (List Point)) (view_dir : Point) : ℚ × ℚ :=
  match depthsList all_edge_pts view_dir with
  | [] => (0, 1)
  | d :: ds => (ds.foldl min d, ds.foldl max d)

/-- Python `max(_dot(p, view_direction) for p in pts)` (line 363);
`0` for an empty list, where Python would raise (edges reaching this
code always have ≥ 2 points). -/
def maxDepth (pts : List Point) (view_direction : Point) : ℚ :=
  match pts.map (fun p => _dot p view_direction) with
  | [] => 0
  | d :: ds => ds.foldl max d

/-- Embeds the visibility-culling block of `_render_view`
(lines 354-364): returns the kept edge polylines and the
`visibility_threshold` used afterwards for feature markers. -/
def _render_view_culling (proj_fn : String) (all_edge_pts : List (List Point))
    (view_direction : Point) : List (List Point) × ℚ :=
  let dr := _compute_model_depth_range all_edge_pts view_direction
  let depth_range := max (dr.2 - dr.1) (1/1000000)
  let visibility_threshold := dr.1 + depth_range * (12/100)
  let visible_edge_pts :=
    if proj_fn = "isometric" then all_edge_pts
    else all_edge_pts.filter (fun pts => decide (maxDepth pts view_direction > visibility_threshold))
  (visible_edge_pts, visibility_threshold)

/-- An axis-aligned pixel rectangle `(x0, y0, x1, y1)`. -/
structure Rect where
  x0 : ℤ
  y0 : ℤ
  x1 : ℤ
  y1 : ℤ
deriving DecidableEq

/-- Embeds `_overlaps` (lines 429-435); the source's default `pad=4` is
passed explicitly at the call site. -/
def _overlaps (rect : Rect) (placed : List Rect) (pad : ℤ) : Bool :=
  placed.any fun b =>
    decide (rect.x0 - pad < b.x1) && decide (rect.x1 + pad > b.x0) &&
    decide (rect.y0 - pad < b.y1) && decide (rect.y1 + pad > b.y0)

/-- The feature dictionaries of the analyzer report (`features` input).
Fields mirror the dictionary keys read by the renderer. -/
structure Cylinder where
  id : String
  location : Point
  radius_mm : ℚ
  axis : String
deriving DecidableEq

/-- A plane feature dictionary. -/
structure PlaneFeature where
  id : String
  location : Point
  area_mm2 : ℚ
  face_type : String
  dims : List ℚ
  normal : List ℚ
deriving DecidableEq

/-- A cone feature dictionary. -/
structure ConeFeature where
  id : String
  location : Point
  area_mm2 : ℚ
  half_angle_deg : ℚ
deriving DecidableEq

/-- The `bounding_box` entry of the feature report. -/
structure BoundingBox where
  x_mm : ℚ
  y_mm : ℚ
  z_mm : ℚ
deriving DecidableEq

/-- The full feature report (`features` dict from step_analyzer.analyze). -/
structure Features where
  cylinders : List Cylinder
  planes : List PlaneFeature
  cones : List ConeFeature
  bounding_box : BoundingBox
deriving DecidableEq

/-- A feature together with its kind, as passed to `_marker_radius`. -/
inductive Feat
  | cyl (c : Cylinder)
  | pln (p : PlaneFeature)
  | cone (k : ConeFeature)
deriving DecidableEq

/-- Embeds `_marker_radius` (lines 438-446) with `base = 8` (the source
default): `min(14, max(base, int(base + r*0.3)))` for cylinders and
`min(13, max(base, int(base + a**0.25)))` for planes/cones. -/
def _marker_radius (feature : Feat) (feature_type : String) : ℤ :=
  if feature_type = "cylinder" then
    let r : ℚ := match feature with
      | Feat.cyl c => c.radius_mm
      | _ => 1
    min 14 (max 8 (pyInt (8 + r * (3/10))))
  else if feature_type = "plane" ∨ feature_type = "cone" then
    let a : ℚ := match feature with
      | Feat.pln p => p.area_mm2
      | Feat.cone k => k.area_mm2
      | _ => 1
    min 13 (max 8 (8 + (fourthRootFloor a : ℤ)))
  else 8

/-- Embeds the `visible` closure of `_draw_feature_markers`
(lines 464-467): always true for the isometric view, otherwise
`dot(loc, view_direction) >= visibility_threshold`. -/
def featureVisible (proj_fn : String) (view_direction : Point)
    (visibility_threshold : ℚ) (loc : Point) : Bool :=
  if proj_fn = "isometric" then true
  else decide (_dot loc view_direction ≥ visibility_threshold)

/-- One abstracted drawing action of the marker pass: the glyph shape
drawn for a feature, or a placed ID badge with its recorded rectangle. -/
inductive MarkerOp
  | glyph (kind : String) (shape : String) (fid : String) (px : ℤ) (py : ℤ) (r : ℤ)
  | badge (kind : String) (fid : String) (text : String) (rect : Rect)
deriving DecidableEq

/-- Embeds `try_badge` (lines 471-483): pad the text bbox by 3, skip if
it `_overlaps` (pad 4) an already placed rectangle, otherwise append it
to `placed`; returns the new `placed` list and the drawn rectangle (if
any).  `textbbox` abstracts `draw.textbbox` (or its fallback
`(px, py, px + len(text)*7, py + 14)`). -/
def try_badge (textbbox : ℤ → ℤ → String → Rect) (px py : ℤ) (text : String)
    (placed : List Rect) : List Rect × Option Rect :=
  let bbox := textbbox px py text
  let pad : ℤ := 3
  let rb : Rect := ⟨bbox.x0 - pad, bbox.y0 - pad, bbox.x1 + pad, bbox.y1 + pad⟩
  if _overlaps rb placed 4 then (placed, none)
  else (placed ++ [rb], some rb)

/-- The cylinder loop of `_draw_feature_markers` (lines 486-494):
for each visible cylinder draw a circle glyph, then attempt a badge at
`(px + r + 3, py - 7)` with text `id.replace("f","C")`. -/
def processCylinders (textbbox : ℤ → ℤ → String → Rect) (to_px : Point → ℤ × ℤ)
    (vis : Point → Bool) :
    List Cylinder → List MarkerOp × List Rect → List MarkerOp × List Rect
  | [], acc => acc
  | cyl :: rest, acc =>
    if vis cyl.location then
      let pxy := to_px cyl.location
      let r := _marker_radius (Feat.cyl cyl) "cylinder"
      let badge := pyReplaceChar cyl.id 'f' 'C'
      let ops1 := acc.1 ++ [MarkerOp.glyph "cylinder" "circle" cyl.id pxy.1 pxy.2 r]
      let res := try_badge textbbox (pxy.1 + r + 3) (pxy.2 - 7) badge acc.2
      let ops2 := match res.2 with
        | some rb => ops1 ++ [MarkerOp.badge "cylinder" cyl.id badge rb]
        | none => ops1
      processCylinders textbbox to_px vis rest (ops2, res.1)
    else
      processCylinders textbbox to_px vis rest acc

/-- The plane loop of `_draw_feature_markers` (lines 496-517): skip
planes with `area_mm2 < 0.5`, then for each visible plane draw a square
(horizontal) or diamond (otherwise) glyph and attempt a badge with text
`id.replace("f","P")`. -/
def processPlanes (textbbox : ℤ → ℤ → String → Rect) (to_px : Point → ℤ × ℤ)
    (vis : Point → Bool) :
    List PlaneFeature → List MarkerOp × List Rect → List MarkerOp × List Rect
  | [], acc => acc
  | pln :: rest, acc =>
    if pln.area_mm2 < 1/2 then
      processPlanes textbbox to_px vis rest acc
    else if vis pln.location then
      let pxy := to_px pln.location
      let r := _marker_radius (Feat.pln pln) "plane"
      let shape := if pln.face_type = "horizontal" then "square" else "diamond"
      let badge := pyReplaceChar pln.id 'f' 'P'
      let ops1 := acc.1 ++ [MarkerOp.glyph "plane" shape pln.id pxy.1 pxy.2 r]
      let res := try_badge textbbox (pxy.1 + r + 3) (pxy.2 - 7) badge acc.2
      let ops2 := match res.2 with
        | some rb => ops1 ++ [MarkerOp.badge "plane" pln.id badge rb]
        | none => ops1
      processPlanes textbbox to_px vis rest (ops2, res.1)
    else
      processPlanes textbbox to_px vis rest acc

/-- The cone loop of `_draw_feature_markers` (lines 520-530): for each
visible cone draw a triangle glyph and attempt a badge with text
`id.replace("f","K")`. -/
def processCones (textbbox : ℤ → ℤ → String → Rect) (to_px : Point → ℤ × ℤ)
    (vis : Point → Bool) :
    List ConeFeature → List MarkerOp × List Rect → List MarkerOp × List Rect
  | [], acc => acc
  | cone :: rest, acc =>
    if vis cone.location then
      let pxy := to_px cone.location
      let r := _marker_radius (Feat.cone cone) "cone"
      let badge := pyReplaceChar cone.id 'f' 'K'
      let ops1 := acc.1 ++ [MarkerOp.glyph "cone" "triangle" cone.id pxy.1 pxy.2 r]
      let res := try_badge textbbox (pxy.1 + r + 3) (pxy.2 - 7) badge acc.2
      let ops2 := match res.2 with
        | some rb => ops1 ++ [MarkerOp.badge "cone" cone.id badge rb]
        | none => ops1
      processCones textbbox to_px vis rest (ops2, res.1)
    else
      processCones textbbox to_px vis rest acc

/-- Embeds `_draw_feature_markers` (lines 449-530): processes cylinders,
then planes, then cones, threading the `placed` badge-rectangle list
through the whole pass; returns the drawing trace and the final
`placed` list. -/
def _draw_feature_markers (textbbox : ℤ → ℤ → String → Rect) (to_px : Point → ℤ × ℤ)
    (view_direction : Point) (visibility_threshold : ℚ) (view_cfg : ViewCfg)
    (features : Features) : List MarkerOp × List Rect :=
  let vis := featureVisible view_cfg.project_fn view_direction visibility_threshold
  processCones textbbox to_px vis features.cones
    (processPlanes textbbox to_px vis features.planes
      (processCylinders textbbox to_px vis features.cylinders ([], [])))

/-- One row of the legend panel, abstracting the drawn text: a section
header with its count, an icon row carrying the plane it lists, the
"none detected" note, or the trailing "... N more" note. -/
inductive LegendRow
  | header (title : String) (count : ℕ)
  | icon (shape : String) (p : PlaneFeature)
  | noneDetected
  | more (n : ℕ)
deriving DecidableEq

/-- The qualifying-plane predicate of a legend plane group: matching
face type (`== "horizontal"` for the horizontal group, `!= "horizontal"`
for the vertical group) and `area_mm2 >= 0.5` (lines 618 and 634). -/
def legendQualifies (isHoriz : Bool) (p : PlaneFeature) : Bool :=
  (if isHoriz then decide (p.face_type = "horizontal")
   else decide (p.face_type ≠ "horizontal")) && decide (p.area_mm2 ≥ 1/2)

/-- Embeds one plane group of `_draw_legend` (lines 617-629 for the
horizontal group, 633-646 for the vertical group): filter planes of the
group's face type with `area_mm2 >= 0.5`, sort descending by area
(Python's stable `sorted` with `key=lambda p: -area`), list the top
`MAX_ROWS = 5`, and append a "... N more" row when truncated. -/
def legendPlaneGroup (planes : List PlaneFeature) (isHoriz : Bool) : List LegendRow :=
  let sel := planes.filter (legendQualifies isHoriz)
  let sortedSel := sel.mergeSort (fun p q => decide (q.area_mm2 ≤ p.area_mm2))
  [LegendRow.header (if isHoriz then "HORIZ FACES" else "VERT FACES") sortedSel.length]
    ++ (if sortedSel.isEmpty then [LegendRow.noneDetected] else [])
    ++ (sortedSel.take 5).map (fun p =>
        LegendRow.icon (if isHoriz then "square" else "diamond") p)
    ++ (if 5 < sortedSel.length then [LegendRow.more (sortedSel.length - 5)] else [])

/-- Embeds the per-view loop of `render_multiview` (lines 291-307): the
fallible per-view render (`_render_view` wrapped in try/except) is
abstracted as `renderView`; a successful view adds `name → path` to the
result mapping, a failing view is logged and skipped. -/
def render_multiview (renderView : ViewCfg → Except String String)
    (views : List ViewCfg) : List (String × String) :=
  views.foldl (fun result view_cfg =>
    match renderView view_cfg with
    | Except.ok p => result ++ [(view_cfg.name, p)]
    | Except.error _ => result) []

/-- Kind tag ("cylinder" / "plane" / "cone") of a marker operation. -/
def opKind : MarkerOp → String
  | MarkerOp.glyph kind _ _ _ _ _ => kind
  | MarkerOp.badge kind _ _ _ => kind

/-- Feature id recorded in a marker operation. -/
def opFid : MarkerOp → String
  | MarkerOp.glyph _ _ fid _ _ _ => fid
  | MarkerOp.badge _ fid _ _ => fid

/-- The `(kind, shape, fid)` summaries of the glyphs of a trace, in
drawing order. -/
def glyphSummaries (ops : List MarkerOp) : List (String × String × String) :=
  ops.filterMap fun op => match op with
    | MarkerOp.glyph kind shape fid _ _ _ => some (kind, shape, fid)
    | _ => none

/-- The badge texts of a trace, in drawing order. -/
def badgeTexts (ops : List MarkerOp) : List String :=
  ops.filterMap fun op => match op with
    | MarkerOp.badge _ _ text _ => some text
    | _ => none

/-- Two axis-aligned rectangles overlap: the AABB intersection test of
`_overlaps` with pad 0. -/
def RectOverlap (a b : Rect) : Prop :=
  a.x0 < b.x1 ∧ a.x1 > b.x0 ∧ a.y0 < b.y1 ∧ a.y1 > b.y0

/-- Rectangles that do not overlap. -/
def RectDisjoint (a b : Rect) : Prop := ¬ RectOverlap a b

/-- The text bbox used by `try_badge`'s fallback branch when the PIL
backend raises: `(px, py, px + len(text)*7, py + 14)` (line 476). -/
def fallbackTextBBox (px py : ℤ) (text : String) : Rect :=
  ⟨px, py, px + 7 * (text.length : ℤ), py + 14⟩

/-- A degenerate pixel projection sending every location to the origin;
used to instantiate the marker pass at concrete inputs. -/
def constToPx (_ : Point) : ℤ × ℤ :=
  (0, 0)

/-- The isometric entry of the `VIEWS` table. -/
def isoView : ViewCfg :=
  ⟨"isometric", "Isometric", (1/2, -(1/2), 1/2), "isometric", none, none⟩

/-- Rank of a glyph shape in the processing order asserted by the spec:
circle (cylinders), square (horizontal planes), diamond (vertical
planes), triangle (cones). -/
def glyphRank (shape : String) : ℕ :=
  if shape = "circle" then 0
  else if shape = "square" then 1
  else if shape = "diamond" then 2
  else 3

/-- The processing order claimed by the spec: all cylinders, then all
horizontal planes, then all vertical planes, then all cones — i.e. the
glyph shapes appear with nondecreasing rank. -/
def ClaimedMarkerOrder (ops : List MarkerOp) : Prop :=
  ((glyphSummaries ops).map (fun t => glyphRank t.2.1)).Sorted (· ≤ ·)

/-- A cylinder whose id contains the marker character twice. -/
def cylFF : Cylinder := ⟨"f3f", (0, 0, 0), 0, "Z"⟩

/-- Feature report with just the cylinder `cylFF`. -/
def featuresC1 : Features := ⟨[cylFF], [], [], ⟨10, 10, 10⟩⟩

/-- A vertical plane listed first in the feature report. -/
def vPlane : PlaneFeature := ⟨"f1", (0, 0, 0), 1, "vertical", [1, 1], [1, 0, 0]⟩

/-- A horizontal plane listed second in the feature report. -/
def hPlane : PlaneFeature := ⟨"f2", (0, 0, 1), 1, "horizontal", [1, 1], [0, 0, 1]⟩

/-- Feature report with a vertical plane before a horizontal plane. -/
def featuresC2 : Features := ⟨[], [vPlane, hPlane], [], ⟨10, 10, 10⟩⟩

/-- A single straight edge sampled at two points of equal z. -/
def flatEdge : List Point := [(0, 0, 0), (1, 0, 0)]

/-- A horizontal plane with sub-threshold area 0.3 mm². -/
def smallPlaneC5 : PlaneFeature := ⟨"f7", (0, 0, 0), 3/10, "horizontal", [1, 1], [0, 0, 1]⟩

/-- Feature report with just the sub-area plane `smallPlaneC5`. -/
def featuresC5 : Features := ⟨[], [smallPlaneC5], [], ⟨10, 10, 10⟩⟩

/-- A horizontal plane with sub-threshold area 0.25 mm². -/
def smallPlaneC10 : PlaneFeature := ⟨"f9", (0, 0, 0), 1/4, "horizontal", [1, 1], [0, 0, 1]⟩

/-- Feature report with just the sub-area plane `smallPlaneC10`. -/
def featuresC10 : Features := ⟨[], [smallPlaneC10], [], ⟨10, 10, 10⟩⟩

/-- The planes carried by the icon rows of a legend fragment, in listed
order. -/
def legendIconPlanes (rows : List LegendRow) : List PlaneFeature :=
  rows.filterMap fun r => match r with
    | LegendRow.icon _ p => some p
    | _ => none

/-- The counts of the "... N more" rows of a legend fragment. -/
def legendMoreCounts (rows : List LegendRow) : List ℕ :=
  rows.filterMap fun r => match r with
    | LegendRow.more n => some n
    | _ => none

theorem glyphSummaries_append (l₁ l₂ : List MarkerOp) :
    glyphSummaries (l₁ ++ l₂) = glyphSummaries l₁ ++ glyphSummaries l₂ :=
  List.filterMap_append _ _ _

theorem glyphSummaries_processCylinders (tb : ℤ → ℤ → String → Rect)
    (to_px : Point → ℤ × ℤ) (vis : Point → Bool) :
    ∀ (cyls : List Cylinder) (acc : List MarkerOp × List Rect),
      glyphSummaries (processCylinders tb to_px vis cyls acc).1
        = glyphSummaries acc.1
          ++ (cyls.filter (fun c => vis c.location)).map
              (fun c => ("cylinder", "circle", c.id))
  | [], acc => by simp [processCylinders]
  | cyl :: rest, acc => by
    by_cases h : vis cyl.location
    · simp only [processCylinders, h, if_true, List.filter_cons_of_pos]
      rw [glyphSummaries_processCylinders tb to_px vis rest]
      cases hres : (try_badge tb ((to_px cyl.location).1 + _marker_radius (Feat.cyl cyl) "cylinder" + 3)
          ((to_px cyl.location).2 - 7) (pyReplaceChar cyl.id 'f' 'C') acc.2).2 with
      | none => simp [hres, glyphSummaries_append, glyphSummaries]
      | some rb => simp [hres, glyphSummaries_append, glyphSummaries]
    · simp only [processCylinders, h, if_false, Bool.false_eq_true]
      rw [glyphSummaries_processCylinders tb to_px vis rest]
      simp [h]

theorem glyphSummaries_processPlanes (tb : ℤ → ℤ → String → Rect)
    (to_px : Point → ℤ × ℤ) (vis : Point → Bool) :
    ∀ (plns : List PlaneFeature) (acc : List MarkerOp × List Rect),
      glyphSummaries (processPlanes tb to_px vis plns acc).1
        = glyphSummaries acc.1
          ++ (plns.filter (fun p => !decide (p.area_mm2 < 1/2) && vis p.location)).map
              (fun p => ("plane",
                         if p.face_type = "horizontal" then "square" else "diamond",
                         p.id))
  | [], acc => by simp [processPlanes]
  | pln :: rest, acc => by
    by_cases ha : pln.area_mm2 < 1/2
    · have hfilter : (pln :: rest).filter (fun p => !decide (p.area_mm2 < 1/2) && vis p.location)
          = rest.filter (fun p => !decide (p.area_mm2 < 1/2) && vis p.location) := by
        simp only [List.filter_cons]
        rw [if_neg]
        rw [decide_eq_true ha]
        simp
      rw [hfilter]
      simp only [processPlanes, ha, if_true]
      rw [glyphSummaries_processPlanes tb to_px vis rest]
    · by_cases h : vis pln.location
      · have hfilter : (pln :: rest).filter (fun p => !decide (p.area_mm2 < 1/2) && vis p.location)
            = pln :: rest.filter (fun p => !decide (p.area_mm2 < 1/2) && vis p.location) := by
          simp only [List.filter_cons]
          rw [if_pos]
          rw [decide_eq_false ha, h]
          rfl
        rw [hfilter]
        simp only [processPlanes, ha, if_false, h, if_true]
        rw [glyphSummaries_processPlanes tb to_px vis rest]
        cases hres : (try_badge tb ((to_px pln.location).1 + _marker_radius (Feat.pln pln) "plane" + 3)
            ((to_px pln.location).2 - 7) (pyReplaceChar pln.id 'f' 'P') acc.2).2 with
        | none => simp [hres, glyphSummaries_append, glyphSummaries]
        | some rb => simp [hres, glyphSummaries_append, glyphSummaries]
      · have hfilter : (pln :: rest).filter (fun p => !decide (p.area_mm2 < 1/2) && vis p.location)
            = rest.filter (fun p => !decide (p.area_mm2 < 1/2) && vis p.location) := by
          simp [List.filter_cons, h]
        rw [hfilter]
        simp only [processPlanes, ha, if_false, h, Bool.false_eq_true]
        rw [glyphSummaries_processPlanes tb to_px vis rest]

theorem glyphSummaries_processCones (tb : ℤ → ℤ → String → Rect)
    (to_px : Point → ℤ × ℤ) (vis : Point → Bool) :
    ∀ (cones : List ConeFeature) (acc : List MarkerOp × List Rect),
      glyphSummaries (processCones tb to_px vis cones acc).1
        = glyphSummaries acc.1
          ++ (cones.filter (fun k => vis k.location)).map
              (fun k => ("cone", "triangle", k.id))
  | [], acc => by simp [processCones]
  | cone :: rest, acc => by
    by_cases h : vis cone.location
    · simp only [processCones, h, if_true, List.filter_cons_of_pos]
      rw [glyphSummaries_processCones tb to_px vis rest]
      cases hres : (try_badge tb ((to_px cone.location).1 + _marker_radius (Feat.cone cone) "cone" + 3)
          ((to_px cone.location).2 - 7) (pyReplaceChar cone.id 'f' 'K') acc.2).2 with
      | none => simp [hres, glyphSummaries_append, glyphSummaries]
      | some rb => simp [hres, glyphSummaries_append, glyphSummaries]
    · simp only [processCones, h, if_false, Bool.false_eq_true]
      rw [glyphSummaries_processCones tb to_px vis rest]
      simp [h]

/-- Glyph order of the whole marker pass: all cylinders (input order),
then all sufficiently large visible planes (input order, horizontal and
vertical interleaved as given), then all cones (input order). -/
theorem glyphSummaries_draw_feature_markers (tb : ℤ → ℤ → String → Rect)
    (to_px : Point → ℤ × ℤ) (view_direction : Point) (visibility_threshold : ℚ)
    (view_cfg : ViewCfg) (features : Features) :
    glyphSummaries (_draw_feature_markers tb to_px view_direction visibility_threshold
        view_cfg features).1
      = (features.cylinders.filter (fun c =>
            featureVisible view_cfg.project_fn view_direction visibility_threshold c.location)).map
            (fun c => ("cylinder", "circle", c.id))
        ++ (features.planes.filter (fun p => !decide (p.area_mm2 < 1/2)
              && featureVisible view_cfg.project_fn view_direction visibility_threshold p.location)).map
            (fun p => ("plane",
                       if p.face_type = "horizontal" then "square" else "diamond",
                       p.id))
        ++ (features.cones.filter (fun k =>
            featureVisible view_cfg.project_fn view_direction visibility_threshold k.location)).map
            (fun k => ("cone", "triangle", k.id)) := by
  unfold _draw_feature_markers
  rw [glyphSummaries_processCones, glyphSummaries_processPlanes,
    glyphSummaries_processCylinders]
  simp [glyphSummaries, List.append_assoc]

theorem rectDisjoint_symm {a b : Rect} (h : RectDisjoint a b) : RectDisjoint b a := by
  intro hov
  obtain ⟨h1, h2, h3, h4⟩ := hov
  exact h ⟨h2, h1, h4, h3⟩

theorem overlaps_false_disjoint {rb : Rect} {placed : List Rect}
    (h : _overlaps rb placed 4 = false) : ∀ b ∈ placed, RectDisjoint rb b := by
  intro b hb hov
  obtain ⟨h1, h2, h3, h4⟩ := hov
  unfold _overlaps at h
  rw [List.any_eq_false] at h
  have hp := h b hb
  simp only [Bool.and_eq_true, decide_eq_true_eq, not_and] at hp
  omega

theorem try_badge_pairwise (tb : ℤ → ℤ → String → Rect) (px py : ℤ) (text : String)
    {placed : List Rect} (h : List.Pairwise RectDisjoint placed) :
    List.Pairwise RectDisjoint (try_badge tb px py text placed).1 := by
  simp only [try_badge]
  split
  · exact h
  · next hov =>
    rw [Bool.not_eq_true] at hov
    rw [List.pairwise_append]
    refine ⟨h, List.pairwise_singleton _ _, ?_⟩
    intro a ha b hb
    rw [List.mem_singleton] at hb
    subst hb
    exact rectDisjoint_symm (overlaps_false_disjoint hov a ha)

theorem processCylinders_pairwise (tb : ℤ → ℤ → String → Rect) (to_px : Point → ℤ × ℤ)
    (vis : Point → Bool) :
    ∀ (cyls : List Cylinder) (acc : List MarkerOp × List Rect),
      List.Pairwise RectDisjoint acc.2 →
      List.Pairwise RectDisjoint (processCylinders tb to_px vis cyls acc).2
  | [], _, h => h
  | cyl :: rest, acc, h => by
    by_cases hv : vis cyl.location
    · simp only [processCylinders, hv, if_true]
      exact processCylinders_pairwise tb to_px vis rest _
        (try_badge_pairwise tb _ _ _ h)
    · simp only [processCylinders, hv, Bool.false_eq_true, if_false]
      exact processCylinders_pairwise tb to_px vis rest acc h

theorem processPlanes_pairwise (tb : ℤ → ℤ → String → Rect) (to_px : Point → ℤ × ℤ)
    (vis : Point → Bool) :
    ∀ (plns : List PlaneFeature) (acc : List MarkerOp × List Rect),
      List.Pairwise RectDisjoint acc.2 →
      List.Pairwise RectDisjoint (processPlanes tb to_px vis plns acc).2
  | [], _, h => h
  | pln :: rest, acc, h => by
    by_cases ha : pln.area_mm2 < 1/2
    · simp only [processPlanes, ha, if_true]
      exact processPlanes_pairwise tb to_px vis rest acc h
    · by_cases hv : vis pln.location
      · simp only [processPlanes, ha, if_false, hv, if_true]
        exact processPlanes_pairwise tb to_px vis rest _
          (try_badge_pairwise tb _ _ _ h)
      · simp only [processPlanes, ha, if_false, hv, Bool.false_eq_true]
        exact processPlanes_pairwise tb to_px vis rest acc h

theorem processCones_pairwise (tb : ℤ → ℤ → String → Rect) (to_px : Point → ℤ × ℤ)
    (vis : Point → Bool) :
    ∀ (cones : List ConeFeature) (acc : List MarkerOp × List Rect),
      List.Pairwise RectDisjoint acc.2 →
      List.Pairwise RectDisjoint (processCones tb to_px vis cones acc).2
  | [], _, h => h
  | cone :: rest, acc, h => by
    by_cases hv : vis cone.location
    · simp only [processCones, hv, if_true]
      exact processCones_pairwise tb to_px vis rest _
        (try_badge_pairwise tb _ _ _ h)
    · simp only [processCones, hv, Bool.false_eq_true, if_false]
      exact processCones_pairwise tb to_px vis rest acc h

theorem mem_processCylinders_kind (tb : ℤ → ℤ → String → Rect) (to_px : Point → ℤ × ℤ)
    (vis : Point → Bool) :
    ∀ (cyls : List Cylinder) (acc : List MarkerOp × List Rect) (o : MarkerOp),
      o ∈ (processCylinders tb to_px vis cyls acc).1 →
      o ∈ acc.1 ∨ opKind o = "cylinder"
  | [], _, o, ho => Or.inl ho
  | cyl :: rest, acc, o, ho => by
    by_cases hv : vis cyl.location
    · simp only [processCylinders, hv, if_true] at ho
      rcases mem_processCylinders_kind tb to_px vis rest _ o ho with h1 | h1
      · cases hres : (try_badge tb ((to_px cyl.location).1 + _marker_radius (Feat.cyl cyl) "cylinder" + 3)
            ((to_px cyl.location).2 - 7) (pyReplaceChar cyl.id 'f' 'C') acc.2).2 with
        | none =>
          rw [hres] at h1
          rcases List.mem_append.mp h1 with h2 | h2
          · exact Or.inl h2
          · rw [List.mem_singleton] at h2
            subst h2
            exact Or.inr rfl
        | some rb =>
          rw [hres] at h1
          rcases List.mem_append.mp h1 with h2 | h2
          · rcases List.mem_append.mp h2 with h3 | h3
            · exact Or.inl h3
            · rw [List.mem_singleton] at h3
              subst h3
              exact Or.inr rfl
          · rw [List.mem_singleton] at h2
            subst h2
            exact Or.inr rfl
      · exact Or.inr h1
    · simp only [processCylinders, hv, Bool.false_eq_true, if_false] at ho
      exact mem_processCylinders_kind tb to_px vis rest acc o ho

theorem mem_processCones_kind (tb : ℤ → ℤ → String → Rect) (to_px : Point → ℤ × ℤ)
    (vis : Point → Bool) :
    ∀ (cones : List ConeFeature) (acc : List MarkerOp × List Rect) (o : MarkerOp),
      o ∈ (processCones tb to_px vis cones acc).1 →
      o ∈ acc.1 ∨ opKind o = "cone"
  | [], _, o, ho => Or.inl ho
  | cone :: rest, acc, o, ho => by
    by_cases hv : vis cone.location
    · simp only [processCones, hv, if_true] at ho
      rcases mem_processCones_kind tb to_px vis rest _ o ho with h1 | h1
      · cases hres : (try_badge tb ((to_px cone.location).1 + _marker_radius (Feat.cone cone) "cone" + 3)
            ((to_px cone.location).2 - 7) (pyReplaceChar cone.id 'f' 'K') acc.2).2 with
        | none =>
          rw [hres] at h1
          rcases List.mem_append.mp h1 with h2 | h2
          · exact Or.inl h2
          · rw [List.mem_singleton] at h2
            subst h2
            exact Or.inr rfl
        | some rb =>
          rw [hres] at h1
          rcases List.mem_append.mp h1 with h2 | h2
          · rcases List.mem_append.mp h2 with h3 | h3
            · exact Or.inl h3
            · rw [List.mem_singleton] at h3
              subst h3
              exact Or.inr rfl
          · rw [List.mem_singleton] at h2
            subst h2
            exact Or.inr rfl
      · exact Or.inr h1
    · simp only [processCones, hv, Bool.false_eq_true, if_false] at ho
      exact mem_processCones_kind tb to_px vis rest acc o ho

theorem mem_processPlanes_source (tb : ℤ → ℤ → String → Rect) (to_px : Point → ℤ × ℤ)
    (vis : Point → Bool) :
    ∀ (plns : List PlaneFeature) (acc : List MarkerOp × List Rect) (o : MarkerOp),
      o ∈ (processPlanes tb to_px vis plns acc).1 →
      o ∈ acc.1 ∨ ∃ q ∈ plns, opKind o = "plane" ∧ opFid o = q.id ∧ ¬ q.area_mm2 < 1/2
  | [], _, o, ho => Or.inl ho
  | pln :: rest, acc, o, ho => by
    by_cases ha : pln.area_mm2 < 1/2
    · simp only [processPlanes, ha, if_true] at ho
      rcases mem_processPlanes_source tb to_px vis rest acc o ho with h1 | h1
      · exact Or.inl h1
      · obtain ⟨q, hq, hko⟩ := h1
        exact Or.inr ⟨q, List.mem_cons_of_mem _ hq, hko⟩
    · by_cases hv : vis pln.location
      · simp only [processPlanes, ha, if_false, hv, if_true] at ho
        rcases mem_processPlanes_source tb to_px vis rest _ o ho with h1 | h1
        · cases hres : (try_badge tb ((to_px pln.location).1 + _marker_radius (Feat.pln pln) "plane" + 3)
              ((to_px pln.location).2 - 7) (pyReplaceChar pln.id 'f' 'P') acc.2).2 with
          | none =>
            rw [hres] at h1
            rcases List.mem_append.mp h1 with h2 | h2
            · exact Or.inl h2
            · rw [List.mem_singleton] at h2
              subst h2
              exact Or.inr ⟨pln, List.mem_cons_self _ _, rfl, rfl, ha⟩
          | some rb =>
            rw [hres] at h1
            rcases List.mem_append.mp h1 with h2 | h2
            · rcases List.mem_append.mp h2 with h3 | h3
              · exact Or.inl h3
              · rw [List.mem_singleton] at h3
                subst h3
                exact Or.inr ⟨pln, List.mem_cons_self _ _, rfl, rfl, ha⟩
            · rw [List.mem_singleton] at h2
              subst h2
              exact Or.inr ⟨pln, List.mem_cons_self _ _, rfl, rfl, ha⟩
        · obtain ⟨q, hq, hko⟩ := h1
          exact Or.inr ⟨q, List.mem_cons_of_mem _ hq, hko⟩
      · simp only [processPlanes, ha, if_false, hv, Bool.false_eq_true] at ho
        rcases mem_processPlanes_source tb to_px vis rest acc o ho with h1 | h1
        · exact Or.inl h1
        · obtain ⟨q, hq, hko⟩ := h1
          exact Or.inr ⟨q, List.mem_cons_of_mem _ hq, hko⟩

theorem foldl_max_const (d : ℚ) :
    ∀ (l : List ℚ), (∀ x ∈ l, x = d) → ∀ a, a = d → l.foldl max a = d
  | [], _, _, ha => ha
  | x :: xs, h, a, ha => by
    rw [List.foldl_cons]
    refine foldl_max_const d xs (fun y hy => h y (List.mem_cons_of_mem _ hy)) _ ?_
    rw [ha, h x (List.mem_cons_self _ _)]
    exact max_self d

theorem foldl_min_const (d : ℚ) :
    ∀ (l : List ℚ), (∀ x ∈ l, x = d) → ∀ a, a = d → l.foldl min a = d
  | [], _, _, ha => ha
  | x :: xs, h, a, ha => by
    rw [List.foldl_cons]
    refine foldl_min_const d xs (fun y hy => h y (List.mem_cons_of_mem _ hy)) _ ?_
    rw [ha, h x (List.mem_cons_self _ _)]
    exact min_self d

theorem maxDepth_const {pts : List Point} {v : Point} {d : ℚ}
    (hne : pts ≠ []) (hd : ∀ p ∈ pts, _dot p v = d) : maxDepth pts v = d := by
  unfold maxDepth
  cases pts with
  | nil => exact absurd rfl hne
  | cons p ps =>
    simp only [List.map_cons]
    refine foldl_max_const d _ ?_ _ (hd p (List.mem_cons_self _ _))
    intro y hy
    obtain ⟨q, hq, rfl⟩ := List.mem_map.mp hy
    exact hd q (List.mem_cons_of_mem _ hq)

theorem depthsList_const {E : List (List Point)} {v : Point} {d : ℚ}
    (hd : ∀ pts ∈ E, ∀ p ∈ pts, _dot p v = d) : ∀ x ∈ depthsList E v, x = d := by
  intro x hx
  unfold depthsList at hx
  rw [List.mem_flatten] at hx
  obtain ⟨l, hl, hxl⟩ := hx
  obtain ⟨pts, hpts, rfl⟩ := List.mem_map.mp hl
  obtain ⟨p, hp, rfl⟩ := List.mem_map.mp hxl
  exact hd pts hpts p hp

theorem depthsList_ne_nil {E : List (List Point)} {v : Point} {pts : List Point}
    (hpts : pts ∈ E) (hne : pts ≠ []) : depthsList E v ≠ [] := by
  cases pts with
  | nil => exact absurd rfl hne
  | cons p ps =>
    apply List.ne_nil_of_mem (a := _dot p v)
    unfold depthsList
    rw [List.mem_flatten]
    exact ⟨(p :: ps).map (fun q => _dot q v), List.mem_map_of_mem _ hpts,
      List.mem_map_of_mem _ (List.mem_cons_self _ _)⟩

theorem compute_range_const {E : List (List Point)} {v : Point} {d : ℚ}
    (hne : depthsList E v ≠ []) (hd : ∀ x ∈ depthsList E v, x = d) :
    _compute_model_depth_range E v = (d, d) := by
  unfold _compute_model_depth_range
  cases h : depthsList E v with
  | nil => exact absurd h hne
  | cons x xs =>
    have hx : x = d := hd x (h ▸ List.mem_cons_self _ _)
    have hxs : ∀ y ∈ xs, y = d := fun y hy => hd y (h ▸ List.mem_cons_of_mem _ hy)
    show (xs.foldl min x, xs.foldl max x) = (d, d)
    rw [foldl_min_const d xs hxs x hx, foldl_max_const d xs hxs x hx]

/-- In an orthographic view where every sampled point has the same
depth `d`, the strict test `max_depth > d + (1e-6)·0.12` fails for every
edge: all edges are culled. -/
theorem culling_const_depth {proj_fn : String} {E : List (List Point)} {v : Point} {d : ℚ}
    (ho : proj_fn ≠ "isometric") (hnn : ∀ pts ∈ E, pts ≠ [])
    (hd : ∀ pts ∈ E, ∀ p ∈ pts, _dot p v = d) :
    (_render_view_culling proj_fn E v).1 = [] := by
  unfold _render_view_culling
  simp only [ho, if_false]
  rw [List.filter_eq_nil_iff]
  intro pts hpts
  have hrange : _compute_model_depth_range E v = (d, d) :=
    compute_range_const (depthsList_ne_nil hpts (hnn pts hpts)) (depthsList_const hd)
  have hmax : maxDepth pts v = d := maxDepth_const (hnn pts hpts) (hd pts hpts)
  simp only [hrange, hmax, sub_self, decide_eq_true_eq, not_lt]
  have : max (0 : ℚ) (1/1000000) = 1/1000000 := max_eq_right (by norm_num)
  rw [this]
  linarith [show (0 : ℚ) < 1/1000000 * (12/100) by norm_num]

theorem pyInt_intCast (n : ℤ) : pyInt (n : ℚ) = n := by
  unfold pyInt
  split
  · exact Int.floor_intCast n
  · rw [show -(n : ℚ) = ((-n : ℤ) : ℚ) by push_cast; ring, Int.floor_intCast]
    ring

theorem render_multiview_foldl (renderView : ViewCfg → Except String String) :
    ∀ (views : List ViewCfg) (acc : List (String × String)),
      (views.foldl (fun result view_cfg =>
          match renderView view_cfg with
          | Except.ok p => result ++ [(view_cfg.name, p)]
          | Except.error _ => result) acc).map Prod.fst
        = acc.map Prod.fst
          ++ (views.filter (fun v => (renderView v).isOk)).map ViewCfg.name
  | [], acc => by simp
  | v :: rest, acc => by
    cases hr : renderView v with
    | ok p =>
      rw [List.foldl_cons]
      simp only [hr]
      rw [render_multiview_foldl renderView rest]
      simp [List.filter_cons, hr, Except.isOk, Except.toBool]
    | error e =>
      rw [List.foldl_cons]
      simp only [hr]
      rw [render_multiview_foldl renderView rest]
      simp [List.filter_cons, hr, Except.isOk, Except.toBool]

theorem filterMap_icon_map (s : String) :
    ∀ l : List PlaneFeature,
      List.filterMap (fun r => match r with | LegendRow.icon _ p => some p | _ => none)
        (l.map (fun p => LegendRow.icon s p)) = l
  | [] => rfl
  | p :: t => by
    simp only [List.map_cons, List.filterMap_cons]
    rw [filterMap_icon_map s t]

theorem legendIconPlanes_group (planes : List PlaneFeature) (isHoriz : Bool) :
    legendIconPlanes (legendPlaneGroup planes isHoriz)
      = ((planes.filter (legendQualifies isHoriz)).mergeSort
          (fun p q => decide (q.area_mm2 ≤ p.area_mm2))).take 5 := by
  unfold legendPlaneGroup legendIconPlanes
  simp only [List.filterMap_append, apply_ite (List.filterMap _)]
  simp
  rw [← List.map_take]
  exact filterMap_icon_map _ _

theorem legendMoreCounts_group (planes : List PlaneFeature) (isHoriz : Bool) :
    legendMoreCounts (legendPlaneGroup planes isHoriz)
      = (if 5 < (planes.filter (legendQualifies isHoriz)).length
         then [(planes.filter (legendQualifies isHoriz)).length - 5] else []) := by
  unfold legendPlaneGroup legendMoreCounts
  simp only [List.filterMap_append, apply_ite (List.filterMap _)]
  simp [List.filterMap_map, Function.comp, List.length_mergeSort]
  intro a ha
  obtain ⟨p, _, rfl⟩ := List.mem_map.mp (List.mem_of_mem_take ha)
  rfl

/-- C6: within a single view's marker pass the list of placed badge
rectangles never contains two overlapping axis-aligned rectangles — a
badge is recorded and drawn only when its padded rectangle passes the
`_overlaps` check against every already-placed rectangle, so the placed
list stays pairwise disjoint through every placement step, in particular
at the end of the pass. -/
theorem C6_placed_badges_pairwise_disjoint (tb : ℤ → ℤ → String → Rect)
    (to_px : Point → ℤ × ℤ) (view_direction : Point) (visibility_threshold : ℚ)
    (view_cfg : ViewCfg) (features : Features) :
    List.Pairwise RectDisjoint
      (_draw_feature_markers tb to_px view_direction visibility_threshold
        view_cfg features).2 := by
  unfold _draw_feature_markers
  exact processCones_pairwise tb to_px _ features.cones _
    (processPlanes_pairwise tb to_px _ features.planes _
      (processCylinders_pairwise tb to_px _ features.cylinders ([], []) List.Pairwise.nil))

/-- C7: `render_multiview` returns a map whose keys are exactly the
names of the views whose per-view render succeeded — a failing view is
skipped, later views are still rendered, and the fold itself is total
(a per-view failure never aborts the whole call). -/
theorem C7_result_keys_are_successful_views (renderView : ViewCfg → Except String String) :
    (render_multiview renderView VIEWS).map Prod.fst
      = (VIEWS.filter (fun v => (renderView v).isOk)).map ViewCfg.name := by
  unfold render_multiview
  rw [render_multiview_foldl]
  simp

/-- C9: `_map_to_canvas` sends the extremes of the projected bounding
box to the canvas margins, independently per axis: `proj_min` maps
exactly to pixel `margin` and `proj_max` exactly to
`canvas_dim − margin`, for every axis span at or above the 1e-6
degeneracy floor. -/
theorem C9_map_to_canvas_extremes (px_min py_min px_max py_max : ℚ)
    (canvas_w canvas_h margin : ℤ)
    (hx : 1/1000000 ≤ px_max - px_min) (hy : 1/1000000 ≤ py_max - py_min) :
    _map_to_canvas px_min py_min (px_min, py_min) (px_max, py_max)
        (canvas_w : ℚ) (canvas_h : ℚ) (margin : ℚ) = (margin, margin)
    ∧ _map_to_canvas px_max py_max (px_min, py_min) (px_max, py_max)
        (canvas_w : ℚ) (canvas_h : ℚ) (margin : ℚ)
      = (canvas_w - margin, canvas_h - margin) := by
  have hxe : max (px_max - px_min) (1/1000000) = px_max - px_min := max_eq_left hx
  have hye : max (py_max - py_min) (1/1000000) = py_max - py_min := max_eq_left hy
  have hx0 : px_max - px_min ≠ 0 := by
    intro h0
    rw [h0] at hx
    norm_num at hx
  have hy0 : py_max - py_min ≠ 0 := by
    intro h0
    rw [h0] at hy
    norm_num at hy
  constructor
  · simp only [_map_to_canvas, hxe, hye, sub_self, zero_div, zero_mul, add_zero,
      pyInt_intCast]
  · simp only [_map_to_canvas, hxe, hye]
    rw [div_self hx0, div_self hy0, one_mul, one_mul]
    rw [show (margin : ℚ) + ((canvas_w : ℚ) - 2 * margin) = ((canvas_w - margin : ℤ) : ℚ) by
        push_cast
        ring,
      show (margin : ℚ) + ((canvas_h : ℚ) - 2 * margin) = ((canvas_h - margin : ℤ) : ℚ) by
        push_cast
        ring]
    rw [pyInt_intCast, pyInt_intCast]

/-- Witness for C9: span [0,1] on both axes, 1200×900 canvas, margin 80:
the extremes map to pixels 80 and 1120 (x), 80 and 820 (y). -/
theorem C9_map_to_canvas_extremes_witness :
    ((1:ℚ)/1000000 ≤ 1 - 0)
    ∧ (_map_to_canvas 0 0 ((0 : ℚ), (0 : ℚ)) ((1 : ℚ), (1 : ℚ))
          ((1200 : ℤ) : ℚ) ((900 : ℤ) : ℚ) ((80 : ℤ) : ℚ) = ((80 : ℤ), (80 : ℤ))
       ∧ _map_to_canvas 1 1 ((0 : ℚ), (0 : ℚ)) ((1 : ℚ), (1 : ℚ))
          ((1200 : ℤ) : ℚ) ((900 : ℤ) : ℚ) ((80 : ℤ) : ℚ)
         = ((1200 : ℤ) - 80, (900 : ℤ) - 80)) :=
  ⟨by norm_num,
   C9_map_to_canvas_extremes 0 0 1 1 1200 900 80 (by norm_num) (by norm_num)⟩

/-- C10: a plane feature with `area_mm2 < 0.5` gets neither a glyph nor
a badge from the marker pass in any view — no operation of the trace
carries the plane kind together with that feature's id (ids are unique
within the report, per the data-model invariant). -/
theorem C10_small_plane_gets_no_marker (tb : ℤ → ℤ → String → Rect)
    (to_px : Point → ℤ × ℤ) (view_direction : Point) (visibility_threshold : ℚ)
    (view_cfg : ViewCfg) (features : Features) (p : PlaneFeature)
    (_hp : p ∈ features.planes) (ha : p.area_mm2 < 1/2)
    (huniq : ∀ q ∈ features.planes, q.id = p.id → q = p) :
    (_draw_feature_markers tb to_px view_direction visibility_threshold
        view_cfg features).1.filter
      (fun o => decide (opKind o = "plane") && decide (opFid o = p.id)) = [] := by
  rw [List.filter_eq_nil_iff]
  intro o ho
  simp only [Bool.and_eq_true, decide_eq_true_eq, not_and]
  intro hkind hfid
  simp only [_draw_feature_markers] at ho
  rcases mem_processCones_kind tb to_px _ features.cones _ o ho with h1 | h1
  · rcases mem_processPlanes_source tb to_px _ features.planes _ o h1 with h2 | h2
    · rcases mem_processCylinders_kind tb to_px _ features.cylinders _ o h2 with h3 | h3
      · simp at h3
      · rw [hkind] at h3
        exact absurd h3 (by decide)
    · obtain ⟨q, hq, _, hf, hna⟩ := h2
      rw [hf] at hfid
      have hqp : q = p := huniq q hq hfid
      rw [hqp] at hna
      exact hna ha
  · rw [hkind] at h1
    exact absurd h1 (by decide)

/-- Witness for C10: the 0.25 mm² plane `smallPlaneC10` produces no
plane-tagged operation in the isometric marker pass. -/
theorem C10_small_plane_gets_no_marker_witness :
    smallPlaneC10.area_mm2 < 1/2
    ∧ (_draw_feature_markers fallbackTextBBox constToPx (1/2, -(1/2), 1/2) 0
        isoView featuresC10).1.filter
        (fun o => decide (opKind o = "plane") && decide (opFid o = smallPlaneC10.id)) = [] :=
  ⟨by norm_num [smallPlaneC10],
   C10_small_plane_gets_no_marker fallbackTextBBox constToPx (1/2, -(1/2), 1/2) 0
     isoView featuresC10 smallPlaneC10
     (by simp [featuresC10])
     (by norm_num [smallPlaneC10])
     (fun q hq _ => by simpa [featuresC10] using hq)⟩

/-- C8: each legend plane group lists only planes of the group's face
type with area ≥ 0.5, in descending area order; exactly min(5, n)
planes are listed, n counting the qualifying planes, and the
"... N more" rows are exactly one row with N = n − 5 when n > 5 and
absent otherwise (so 8 qualifying planes give the top 5 plus "3 more"). -/
theorem C8_legend_plane_group_rows (planes : List PlaneFeature) (isHoriz : Bool) :
    (legendIconPlanes (legendPlaneGroup planes isHoriz)).length
        = min 5 (planes.filter (legendQualifies isHoriz)).length
    ∧ (∀ q ∈ legendIconPlanes (legendPlaneGroup planes isHoriz),
        legendQualifies isHoriz q = true ∧ 1/2 ≤ q.area_mm2)
    ∧ ((legendIconPlanes (legendPlaneGroup planes isHoriz)).map
        PlaneFeature.area_mm2).Sorted (· ≥ ·)
    ∧ legendMoreCounts (legendPlaneGroup planes isHoriz)
        = (if 5 < (planes.filter (legendQualifies isHoriz)).length
           then [(planes.filter (legendQualifies isHoriz)).length - 5] else []) := by
  refine ⟨?_, ?_, ?_, legendMoreCounts_group planes isHoriz⟩
  · rw [legendIconPlanes_group, List.length_take, List.length_mergeSort]
  · intro q hq
    rw [legendIconPlanes_group] at hq
    have hq2 : q ∈ (planes.filter (legendQualifies isHoriz)).mergeSort
        (fun p q => decide (q.area_mm2 ≤ p.area_mm2)) := List.mem_of_mem_take hq
    have hq3 : q ∈ planes.filter (legendQualifies isHoriz) :=
      (List.mergeSort_perm _ _).mem_iff.mp hq2
    have hpred := (List.mem_filter.mp hq3).2
    refine ⟨hpred, ?_⟩
    have := hpred
    simp only [legendQualifies, Bool.and_eq_true, decide_eq_true_eq] at this
    exact this.2
  · rw [legendIconPlanes_group]
    have hs := @List.sorted_mergeSort PlaneFeature
      (fun p q : PlaneFeature => decide (q.area_mm2 ≤ p.area_mm2))
      (fun a b c hab hbc => by
        simp only [decide_eq_true_eq] at hab hbc ⊢
        exact le_trans hbc hab)
      (fun a b => by
        rcases le_total b.area_mm2 a.area_mm2 with h | h <;> simp [h])
      (planes.filter (legendQualifies isHoriz))
    refine List.Pairwise.map _ ?_
      (List.Pairwise.sublist (List.take_sublist 5 _) hs)
    intro a b hab
    simpa using hab

/-- C2 counterexample: with a vertical plane listed before a horizontal
plane in the feature report (`featuresC2`), the marker pass emits the
diamond glyph before the square glyph, so the claimed fixed order
cylinders → horizontal planes → vertical planes → cones is violated. -/
theorem C2_counterexample :
    ¬ ClaimedMarkerOrder (_draw_feature_markers fallbackTextBBox constToPx
        (1/2, -(1/2), 1/2) 0 isoView featuresC2).1 := by
  have hsum : glyphSummaries (_draw_feature_markers fallbackTextBBox constToPx
      (1/2, -(1/2), 1/2) 0 isoView featuresC2).1
      = [("plane", "diamond", "f1"), ("plane", "square", "f2")] := by
    rw [glyphSummaries_draw_feature_markers]
    simp [featuresC2, vPlane, hPlane, isoView, featureVisible, List.filter_cons,
      decide_eq_false (show ¬ (1:ℚ) < 2⁻¹ by norm_num)]
  unfold ClaimedMarkerOrder
  rw [hsum]
  decide

/-- C2 (amended): within one view's marker pass features are processed
in the fixed group order all cylinders, then all planes, then all
cones — but inside the plane group, horizontal and vertical planes are
processed in the order they appear in the input feature report. -/
theorem C2_processing_order (tb : ℤ → ℤ → String → Rect) (to_px : Point → ℤ × ℤ)
    (view_direction : Point) (visibility_threshold : ℚ) (view_cfg : ViewCfg)
    (features : Features) :
    glyphSummaries (_draw_feature_markers tb to_px view_direction visibility_threshold
        view_cfg features).1
      = (features.cylinders.filter (fun c =>
            featureVisible view_cfg.project_fn view_direction visibility_threshold c.location)).map
            (fun c => ("cylinder", "circle", c.id))
        ++ (features.planes.filter (fun p => !decide (p.area_mm2 < 1/2)
              && featureVisible view_cfg.project_fn view_direction visibility_threshold p.location)).map
            (fun p => ("plane",
                       if p.face_type = "horizontal" then "square" else "diamond",
                       p.id))
        ++ (features.cones.filter (fun k =>
            featureVisible view_cfg.project_fn view_direction visibility_threshold k.location)).map
            (fun k => ("cone", "triangle", k.id)) :=
  glyphSummaries_draw_feature_markers tb to_px view_direction visibility_threshold
    view_cfg features

/-- C5 counterexample: in the isometric view a 0.3 mm² plane from the
feature report gets no marker at all — the sub-area filter still
suppresses its glyph even though the isometric view bypasses depth
culling — so "every feature's marker is drawn" fails. -/
theorem C5_counterexample :
    glyphSummaries (_draw_feature_markers fallbackTextBBox constToPx
        (1/2, -(1/2), 1/2) 0 isoView featuresC5).1 = []
    ∧ featuresC5.planes ≠ [] := by
  constructor
  · rw [glyphSummaries_draw_feature_markers]
    simp [featuresC5, smallPlaneC5, isoView, featureVisible, List.filter_cons,
      decide_eq_true (show (3:ℚ)/10 < 2⁻¹ by norm_num)]
  · simp [featuresC5]

/-- C5 (amended): the isometric view applies no depth culling — every
input edge is kept, the feature visibility test accepts every location,
and markers are drawn for every cylinder and cone and for every plane
with area ≥ 0.5 (the sub-area plane filter still applies). -/
theorem C5_isometric_no_depth_culling (tb : ℤ → ℤ → String → Rect)
    (to_px : Point → ℤ × ℤ) (E : List (List Point)) (v : Point)
    (thr : ℚ) (features : Features) :
    (_render_view_culling "isometric" E v).1 = E
    ∧ featureVisible "isometric" v thr = (fun _ => true)
    ∧ glyphSummaries (_draw_feature_markers tb to_px v thr isoView features).1
        = features.cylinders.map (fun c => ("cylinder", "circle", c.id))
          ++ (features.planes.filter (fun p => !decide (p.area_mm2 < 1/2))).map
              (fun p => ("plane",
                         if p.face_type = "horizontal" then "square" else "diamond",
                         p.id))
          ++ features.cones.map (fun k => ("cone", "triangle", k.id)) := by
  refine ⟨by simp [_render_view_culling], ?_, ?_⟩
  · funext loc
    simp [featureVisible]
  · rw [glyphSummaries_draw_feature_markers]
    simp [isoView, featureVisible]

theorem flatEdge_all_nonempty : ∀ pts ∈ [flatEdge], pts ≠ [] := by
  intro pts h
  rw [List.mem_singleton] at h
  subst h
  simp [flatEdge]

theorem flatEdge_const_depth : ∀ pts ∈ [flatEdge], ∀ p ∈ pts, _dot p (0, 0, 1) = 0 := by
  intro pts h p hp
  rw [List.mem_singleton] at h
  subst h
  unfold flatEdge at hp
  simp only [List.mem_cons, List.not_mem_nil, or_false] at hp
  rcases hp with rfl | rfl
  · norm_num [_dot]
  · norm_num [_dot]

/-- C3 counterexample: with a single edge whose sampled points all have
depth 0 along the top view direction, the orthographic culling removes
the edge — `visible_edge_pts` is empty, not equal to the full edge
list as the claim asserts. -/
theorem C3_counterexample :
    (_render_view_culling "ortho" [flatEdge] (0, 0, 1)).1 = []
    ∧ [flatEdge] ≠ ([] : List (List Point)) :=
  ⟨culling_const_depth (by decide) flatEdge_all_nonempty flatEdge_const_depth, by simp⟩

/-- C3 (amended): when every sampled point has the same depth along the
view direction, the epsilon-floored threshold strictly exceeds that
depth, so in every orthographic view every edge FAILS the visibility
test and no edge is drawn. -/
theorem C3_degenerate_depth_culls_all_edges (proj_fn : String) (E : List (List Point))
    (v : Point) (d : ℚ) (ho : proj_fn ≠ "isometric")
    (hnn : ∀ pts ∈ E, pts ≠ [])
    (hd : ∀ pts ∈ E, ∀ p ∈ pts, _dot p v = d) :
    (_render_view_culling proj_fn E v).1 = [] :=
  culling_const_depth ho hnn hd

/-- Witness for C3 (amended) at the all-depth-0 edge `flatEdge` under
the top view direction. -/
theorem C3_degenerate_depth_culls_all_edges_witness :
    ("ortho" ≠ "isometric"
      ∧ (∀ pts ∈ [flatEdge], pts ≠ [])
      ∧ (∀ pts ∈ [flatEdge], ∀ p ∈ pts, _dot p (0, 0, 1) = 0))
    ∧ (_render_view_culling "ortho" [flatEdge] (0, 0, 1)).1 = [] :=
  ⟨⟨by decide, flatEdge_all_nonempty, flatEdge_const_depth⟩,
   C3_degenerate_depth_culls_all_edges "ortho" [flatEdge] (0, 0, 1) 0 (by decide)
     flatEdge_all_nonempty flatEdge_const_depth⟩

/-- C4 counterexample: with every sampled point at depth 0, the claimed
threshold `depth_min + 0.12·(depth_max − depth_min)` equals 0 and a
feature at depth 0 satisfies `depth ≥ threshold`, yet the code's
feature-visibility test — whose threshold floors the depth range at
1e-6 — rejects that feature. -/
theorem C4_counterexample :
    _dot (0, 0, 0) (0, 0, 1)
        ≥ (_compute_model_depth_range [flatEdge] (0, 0, 1)).1
          + ((_compute_model_depth_range [flatEdge] (0, 0, 1)).2
              - (_compute_model_depth_range [flatEdge] (0, 0, 1)).1) * (12/100)
    ∧ featureVisible "ortho" (0, 0, 1)
        (_render_view_culling "ortho" [flatEdge] (0, 0, 1)).2 (0, 0, 0) = false := by
  have hrange : _compute_model_depth_range [flatEdge] (0, 0, 1) = (0, 0) :=
    compute_range_const
      (depthsList_ne_nil (List.mem_singleton.mpr rfl) (by simp [flatEdge]))
      (depthsList_const flatEdge_const_depth)
  constructor
  · rw [hrange]
    norm_num [_dot]
  · have hthr : (_render_view_culling "ortho" [flatEdge] (0, 0, 1)).2
        = 1/1000000 * (12/100) := by
      simp only [_render_view_culling, hrange]
      rw [show max ((0:ℚ) - 0) (1/1000000) = 1/1000000 from by
        rw [sub_self]
        exact max_eq_right (by norm_num)]
      ring
    rw [hthr]
    unfold featureVisible
    rw [if_neg (by decide)]
    apply decide_eq_false
    norm_num [_dot]

/-- C4 (amended): for every orthographic view, with
threshold = depth_min + 0.12·max(depth_max − depth_min, 1e-6) computed
over all sampled edge points, an edge is kept iff the maximum of
dot(p, view_dir) over its points is strictly greater than the
threshold, and the feature marker visibility test accepts a location
iff dot(location, view_dir) ≥ threshold. -/
theorem C4_visibility_threshold (proj_fn : String) (E : List (List Point)) (v : Point)
    (ho : proj_fn ≠ "isometric") :
    (_render_view_culling proj_fn E v).1
        = E.filter (fun pts => decide (maxDepth pts v
            > (_compute_model_depth_range E v).1
              + max ((_compute_model_depth_range E v).2
                  - (_compute_model_depth_range E v).1) (1/1000000) * (12/100)))
    ∧ (_render_view_culling proj_fn E v).2
        = (_compute_model_depth_range E v).1
          + max ((_compute_model_depth_range E v).2
              - (_compute_model_depth_range E v).1) (1/1000000) * (12/100)
    ∧ featureVisible proj_fn v (_render_view_culling proj_fn E v).2
        = fun loc => decide (_dot loc v
            ≥ (_compute_model_depth_range E v).1
              + max ((_compute_model_depth_range E v).2
                  - (_compute_model_depth_range E v).1) (1/1000000) * (12/100)) := by
  refine ⟨?_, ?_, ?_⟩
  · simp [_render_view_culling, ho]
  · simp [_render_view_culling]
  · funext loc
    simp [_render_view_culling, featureVisible, ho]

/-- Witness for C4 (amended) at the all-depth-0 edge `flatEdge` under
the top view direction. -/
theorem C4_visibility_threshold_witness :
    ("ortho" ≠ "isometric")
    ∧ ((_render_view_culling "ortho" [flatEdge] (0, 0, 1)).1
        = [flatEdge].filter (fun pts => decide (maxDepth pts (0, 0, 1)
            > (_compute_model_depth_range [flatEdge] (0, 0, 1)).1
              + max ((_compute_model_depth_range [flatEdge] (0, 0, 1)).2
                  - (_compute_model_depth_range [flatEdge] (0, 0, 1)).1)
                  (1/1000000) * (12/100)))
      ∧ (_render_view_culling "ortho" [flatEdge] (0, 0, 1)).2
          = (_compute_model_depth_range [flatEdge] (0, 0, 1)).1
            + max ((_compute_model_depth_range [flatEdge] (0, 0, 1)).2
                - (_compute_model_depth_range [flatEdge] (0, 0, 1)).1)
                (1/1000000) * (12/100)
      ∧ featureVisible "ortho" (0, 0, 1) (_render_view_culling "ortho" [flatEdge] (0, 0, 1)).2
          = fun loc => decide (_dot loc (0, 0, 1)
              ≥ (_compute_model_depth_range [flatEdge] (0, 0, 1)).1
                + max ((_compute_model_depth_range [flatEdge] (0, 0, 1)).2
                    - (_compute_model_depth_range [flatEdge] (0, 0, 1)).1)
                    (1/1000000) * (12/100))) :=
  ⟨by decide, C4_visibility_threshold "ortho" [flatEdge] (0, 0, 1) (by decide)⟩

/-- C1 (code evaluation at the failing input): for a cylinder with id
"f3f" — the marker character occurs twice — the badge text produced by
the marker pass is "C3C": every occurrence of "f" is replaced, not only
the leading character, which would give "C3f". -/
theorem C1_badge_replaces_every_occurrence :
    badgeTexts (_draw_feature_markers fallbackTextBBox constToPx (1/2, -(1/2), 1/2) 0
        isoView featuresC1).1 = ["C3C"]
    ∧ pyReplaceChar "f3f" 'f' 'C' ≠ "C3f" := by
  constructor
  · have hrep : pyReplaceChar "f3f" 'f' 'C' = "C3C" := by decide
    simp [_draw_feature_markers, processCylinders, processPlanes, processCones,
      featureVisible, isoView, featuresC1, cylFF, try_badge, _overlaps, badgeTexts,
      fallbackTextBBox, constToPx, hrep]
  · decide

end StepRenderer
